import Mathlib

/-!
Shallow embedding of the pipeline sanitizer of src/db.ts
(sanitizePipeline and its policy constants), together with theorems
settling the specification claims about it.

JavaScript values are modelled by the inductive type Value: numbers are
rationals plus a separate NaN constant, objects are ordered association
lists (JavaScript objects preserve insertion order and have distinct
keys), and arrays carry both their elements and their expando
properties.  A pipeline stage is an object, i.e. a list of key-value
pairs.  The TypeScript module compiles to strict mode, so assigning a
property to a primitive throws; Object.keys(null) throws as well; both
are modelled by the error branch of Except.
-/

inductive Value where
  | vNum (q : Rat)
  | vNaN
  | vStr (s : String)
  | vBool (b : Bool)
  | vNull
  | vUndefined
  | vObj (fields : List (String × Value))
  | vArr (elems : List Value) (props : List (String × Value))

abbrev Stage := List (String × Value)

abbrev Pipeline := List Stage

/-- JavaScript truthiness: 0, NaN, the empty string, false, null and
undefined are falsy; every object and array is truthy. -/
def truthy : Value → Bool
  | .vNum q => q != 0
  | .vNaN => false
  | .vStr s => s ≠ ""
  | .vBool b => b
  | .vNull => false
  | .vUndefined => false
  | .vObj _ => true
  | .vArr _ _ => true

/-- Numeric value of a digit sequence. -/
def digitsToNat (cs : List Char) : Nat :=
  cs.foldl (fun n c => 10 * n + (c.toNat - 48)) 0

def isWhite (c : Char) : Bool :=
  c = ' ' || c = '\t' || c = '\n' || c = '\r'

/-- Unsigned decimal literal: digits with an optional single decimal
point, at least one digit overall. -/
def parseUnsigned (cs : List Char) : Option Rat :=
  let intPart := cs.takeWhile (· ≠ '.')
  match cs.dropWhile (· ≠ '.') with
  | [] =>
    if !cs.isEmpty && cs.all Char.isDigit then some (digitsToNat cs : Rat)
    else none
  | _ :: frac =>
    if frac.contains '.' then none
    else if (!intPart.isEmpty || !frac.isEmpty)
        && intPart.all Char.isDigit && frac.all Char.isDigit then
      some ((digitsToNat intPart : Rat) + (digitsToNat frac : Rat) / (10 : Rat) ^ frac.length)
    else none

/-- Parse a string as a JavaScript decimal numeric literal (optional
sign, digits, optional fractional part); the empty or all-blank string
converts to 0, anything unparseable to NaN (none).  Exotic forms (hex,
exponents, Infinity) are out of scope: no claim depends on them. -/
def parseNumLit (s : String) : Option Rat :=
  let cs := ((s.data.dropWhile isWhite).reverse.dropWhile isWhite).reverse
  match cs with
  | [] => some 0
  | '-' :: rest => (parseUnsigned rest).map Neg.neg
  | '+' :: rest => parseUnsigned rest
  | _ => parseUnsigned cs

/-- JavaScript ToNumber, with none standing for NaN.  Arrays convert
through their joined string form: the empty array to 0, a one element
array to the conversion of that element (null and undefined joining as
the empty string, hence 0), longer arrays to NaN. -/
def toNum : Value → Option Rat
  | .vNum q => some q
  | .vNaN => none
  | .vStr s => parseNumLit s
  | .vBool b => some (if b then 1 else 0)
  | .vNull => some 0
  | .vUndefined => none
  | .vObj _ => none
  | .vArr [] _ => some 0
  | .vArr [e] _ =>
    match e with
    | .vNum q => some q
    | .vStr s => parseNumLit s
    | .vNull => some 0
    | .vUndefined => some 0
    | _ => none
  | .vArr (_ :: _ :: _) _ => none

/-- The expression a or-else b of the source (logical OR on values). -/
def jsOr (a b : Value) : Value := if truthy a then a else b

/-- Math.min of a value and a numeric constant: NaN if the value
converts to NaN, otherwise the numeric minimum. -/
def jsMinConst (v : Value) (c : Rat) : Value :=
  match toNum v with
  | none => .vNaN
  | some q => .vNum (min q c)

/-- A string that is a canonical array index: a non-empty digit
sequence (the only keys under which JavaScript stores array
elements). -/
def strIndexNum (s : String) : Option Nat :=
  if !s.data.isEmpty && s.data.all Char.isDigit then some (digitsToNat s.data)
  else none

/-- Property read v[key] (never throws on non-nullish values): fields of
objects, elements or expando properties of arrays, characters of
strings; undefined otherwise. -/
def jsGet (v : Value) (key : String) : Value :=
  match v with
  | .vObj fields =>
    match fields.find? (fun kv => kv.1 = key) with
    | some kv => kv.2
    | none => .vUndefined
  | .vArr elems props =>
    match strIndexNum key with
    | some i =>
      match elems[i]? with
      | some e => e
      | none => .vUndefined
    | none =>
      match props.find? (fun kv => kv.1 = key) with
      | some kv => kv.2
      | none => .vUndefined
  | .vStr s =>
    match strIndexNum key with
    | some i =>
      match s.data[i]? with
      | some c => .vStr (String.singleton c)
      | none => .vUndefined
    | none => .vUndefined
  | _ => .vUndefined

/-- Replace the first binding of key in an association list, or append a
new binding at the end (JavaScript property creation order). -/
def setField (fields : List (String × Value)) (key : String) (v : Value) :
    List (String × Value) :=
  match fields with
  | [] => [(key, v)]
  | kv :: rest =>
    if kv.1 = key then (key, v) :: rest else kv :: setField rest key v

/-- Property write v.key = newVal.  Throws a TypeError on null and
undefined, and (strict mode) on any other primitive; succeeds on
objects and arrays. -/
def setProp (v : Value) (key : String) (newVal : Value) : Except String Value :=
  match v with
  | .vObj fields => .ok (.vObj (setField fields key newVal))
  | .vArr elems props => .ok (.vArr elems (setField props key newVal))
  | .vNull => .error "TypeError: cannot set properties of null"
  | .vUndefined => .error "TypeError: cannot set properties of undefined"
  | _ => .error "TypeError: cannot create property on a primitive"

/-- Object.keys: throws on null and undefined; field names of an
object, index strings then expando property names of an array, index
strings of a string, empty for the remaining primitives. -/
def jsKeys : Value → Except String (List String)
  | .vNull => .error "TypeError: cannot convert null to object"
  | .vUndefined => .error "TypeError: cannot convert undefined to object"
  | .vObj fields => .ok (fields.map Prod.fst)
  | .vArr elems props =>
    .ok ((List.range elems.length).map toString ++ props.map Prod.fst)
  | .vStr s => .ok ((List.range s.length).map toString)
  | _ => .ok []

/-- Object.keys(v)[0], the operator extraction the source applies to
the elements of a lookup sub-pipeline. -/
def firstKeyJs (v : Value) : Except String (Option String) :=
  (jsKeys v).map List.head?

/-- First key of a stage object (Object.keys(stage)[0] for a stage,
which the embedding represents directly as an association list). -/
def firstKey (s : Stage) : Option String := s.head?.map Prod.fst

def ALLOWED_OPERATIONS : List String :=
  ["$match", "$group", "$sort", "$limit", "$project", "$lookup",
   "$unwind", "$addFields", "$set", "$count"]

def DANGEROUS_OPERATIONS : List String :=
  ["$out", "$merge", "$geoNear", "$text", "$indexStats", "$collStats",
   "$currentOp", "$listLocalSessions"]

def MAX_PIPELINE_STAGES : Nat := 10

def MAX_LIMIT : Rat := 1000

def MAX_GROUP_SIZE : Rat := 10000

/-- The test of the $limit branch of the source: the declared value is
a number (NaN included in the type test, excluded by the positivity
test), positive, and at most MAX_LIMIT. -/
def isValidLimit : Value → Bool
  | .vNum q => 0 < q && q ≤ MAX_LIMIT
  | _ => false

/-- pipeline.some(s, Object.keys(s)[0] === "$limit") over a lookup
sub-pipeline: short-circuits at the first match, throws if a null or
undefined element is inspected first. -/
def scanForLimit : List Value → Except String Bool
  | [] => .ok false
  | v :: rest =>
    match firstKeyJs v with
    | .error e => .error e
    | .ok k => if k = some "$limit" then .ok true else scanForLimit rest

/-- Replace the value of the first key of a stage (the in-place
mutation of stage[stageKey] seen through the stage object). -/
def setStageFirstVal (s : Stage) (v : Value) : Stage :=
  match s with
  | [] => []
  | (k, _) :: rest => (k, v) :: rest

/-- One iteration of the sanitizer loop of src/db.ts on one stage.
Returns the list of stages pushed onto sanitizedPipeline, the stage as
the caller's object stands after the iteration (the lookup branch
mutates it in place), and the updated hasLimit and hasSort flags. -/
def processStage (stage : Stage) (hasLimit hasSort : Bool) :
    Except String (List Stage × Stage × Bool × Bool) :=
  match stage with
  | [] =>
    -- Object.keys(stage)[0] is undefined: not dangerous, not allowed, skipped
    .ok ([], stage, hasLimit, hasSort)
  | (stageKey, stageVal) :: _ =>
    if stageKey ∈ DANGEROUS_OPERATIONS then
      .ok ([], stage, hasLimit, hasSort)
    else if stageKey ∉ ALLOWED_OPERATIONS then
      .ok ([], stage, hasLimit, hasSort)
    else if stageKey = "$limit" then
      if isValidLimit stageVal then
        .ok ([stage], stage, true, hasSort)
      else
        .ok ([[("$limit", jsMinConst (jsOr stageVal (.vNum 100)) MAX_LIMIT)]],
             stage, true, hasSort)
    else if stageKey = "$sort" then
      match jsKeys stageVal with
      | .error e => .error e
      | .ok sortFields =>
        if sortFields.length ≤ 5 then
          .ok ([stage], stage, hasLimit, true)
        else
          let limitedSort := (sortFields.take 5).map (fun f => (f, jsGet stageVal f))
          .ok ([[("$sort", .vObj limitedSort)]], stage, hasLimit, true)
    else if stageKey = "$group" then
      if !hasLimit then
        .ok ([stage, [("$limit", .vNum MAX_GROUP_SIZE)]], stage, true, hasSort)
      else
        .ok ([stage], stage, hasLimit, hasSort)
    else if stageKey = "$lookup" then
      match stageVal with
      | .vNull => .error "TypeError: cannot read properties of null"
      | .vUndefined => .error "TypeError: cannot read properties of undefined"
      | _ =>
        let pl := jsGet stageVal "pipeline"
        if ¬ truthy pl then
          match setProp stageVal "pipeline"
              (.vArr [.vObj [("$limit", .vNum 1000)]] []) with
          | .error e => .error e
          | .ok newVal =>
            let newStage := setStageFirstVal stage newVal
            .ok ([newStage], newStage, hasLimit, hasSort)
        else
          match pl with
          | .vArr elems props =>
            match scanForLimit elems with
            | .error e => .error e
            | .ok hasLookupLimit =>
              if hasLookupLimit then
                .ok ([stage], stage, hasLimit, hasSort)
              else
                match setProp stageVal "pipeline"
                    (.vArr (elems ++ [.vObj [("$limit", .vNum 1000)]]) props) with
                | .error e => .error e
                | .ok newVal =>
                  let newStage := setStageFirstVal stage newVal
                  .ok ([newStage], newStage, hasLimit, hasSort)
          | _ => .ok ([stage], stage, hasLimit, hasSort)
    else
      .ok ([stage], stage, hasLimit, hasSort)

/-- The sanitizer loop over the considered stages, threading the
hasLimit and hasSort flags; returns the accumulated output, the
post-call state of the processed input stages, and the final flags. -/
def sanCore : List Stage → Bool → Bool →
    Except String (List Stage × List Stage × Bool × Bool)
  | [], hl, hs => .ok ([], [], hl, hs)
  | s :: rest, hl, hs =>
    match processStage s hl hs with
    | .error e => .error e
    | .ok (pushed, s', hl1, hs1) =>
      match sanCore rest hl1 hs1 with
      | .error e => .error e
      | .ok (out, ms, hl2, hs2) => .ok (pushed ++ out, s' :: ms, hl2, hs2)

/-- sanitizePipeline of src/db.ts, returning both the sanitized
pipeline and the state of the caller's input array after the call
(the source mutates lookup stages in place).  The loop runs over
i < min(pipeline.length, MAX_PIPELINE_STAGES), i.e. over the take of
the input; if no limit stage was seen a trailing limit MAX_LIMIT
stage is appended. -/
def sanitizeRun (pipeline : Pipeline) : Except String (Pipeline × Pipeline) :=
  match sanCore (pipeline.take MAX_PIPELINE_STAGES) false false with
  | .error e => .error e
  | .ok (out, ms, hasLimit, _hasSort) =>
    let finalOut := if hasLimit then out else out ++ [[("$limit", .vNum MAX_LIMIT)]]
    .ok (finalOut, ms ++ pipeline.drop MAX_PIPELINE_STAGES)

/-- The sanitized pipeline returned by sanitizePipeline. -/
def sanitizePipeline (pipeline : Pipeline) : Except String Pipeline :=
  (sanitizeRun pipeline).map Prod.fst

/-- The caller's pipeline array as it stands after sanitizePipeline
returns (observing the in-place mutations of the lookup branch). -/
def pipelineAfterSanitize (pipeline : Pipeline) : Except String Pipeline :=
  (sanitizeRun pipeline).map Prod.snd

/-! Checkers for the claimed invariants, written as executable boolean
predicates on pipelines. -/

/-- A stage whose operator (first key) is $limit with a numeric value
at most MAX_LIMIT. -/
def isSafeLimitStage : Stage → Bool
  | ("$limit", .vNum q) :: _ => q ≤ MAX_LIMIT
  | _ => false

def containsSafeLimit (p : Pipeline) : Bool := p.any isSafeLimitStage

def isGroupStage (s : Stage) : Bool := firstKey s == some "$group"

/-- A stage whose operator is $limit with the numeric value
MAX_GROUP_SIZE (10000). -/
def isOverflowLimitStage : Stage → Bool
  | ("$limit", .vNum q) :: _ => q == MAX_GROUP_SIZE
  | _ => false

/-- The pipeline contains a $group stage immediately followed by a
$limit MAX_GROUP_SIZE stage. -/
def hasGroupThenOverflow : Pipeline → Bool
  | s1 :: s2 :: rest =>
    (isGroupStage s1 && isOverflowLimitStage s2) || hasGroupThenOverflow (s2 :: rest)
  | _ => false

/-- Invariant I1 of the spec: a $limit stage bounded by MAX_LIMIT, or a
$group stage immediately followed by a $limit MAX_GROUP_SIZE stage. -/
def boundedInvariant (p : Pipeline) : Bool :=
  containsSafeLimit p || hasGroupThenOverflow p

/-- A sub-pipeline element (a JavaScript value) that is an object whose
first key is $limit with a numeric value at most MAX_LIMIT. -/
def isSubLimitStage : Value → Bool
  | .vObj (("$limit", .vNum q) :: _) => q ≤ MAX_LIMIT
  | _ => false

/-- Invariant I4 as claimed: every $lookup stage carries a pipeline
parameter that is a non-empty array containing a $limit stage bounded
by MAX_LIMIT. -/
def claimLookupSafe (p : Pipeline) : Bool :=
  p.all fun s =>
    match s with
    | ("$lookup", v) :: _ =>
      match jsGet v "pipeline" with
      | .vArr elems _ => !elems.isEmpty && elems.any isSubLimitStage
      | _ => false
    | _ => true

/-- Object.keys(v)[0] where it does not throw, none where it would. -/
def totalFirstKey (v : Value) : Option String :=
  match firstKeyJs v with
  | .ok k => k
  | .error _ => none

/-- A single stage satisfies the amended lookup invariant: if its
operator is $lookup and its pipeline parameter is an array, that array
contains an element whose first key is $limit (of whatever value). -/
def lookupStageHasLimit (s : Stage) : Bool :=
  match s with
  | ("$lookup", v) :: _ =>
    match jsGet v "pipeline" with
    | .vArr elems _ => elems.any (fun e => totalFirstKey e == some "$limit")
    | _ => true
  | _ => true

/-- Amended lookup invariant: whenever the pipeline parameter of an
output $lookup stage is an array, that array contains an element whose
first key is $limit (of whatever value). -/
def lookupArraysHaveLimit (p : Pipeline) : Bool :=
  p.all lookupStageHasLimit

/-- The pipeline has a stage carrying k among its keys (any position,
not only the operator position). -/
def carriesKey (p : Pipeline) (k : String) : Bool :=
  p.any (fun s => s.any (fun kv => kv.1 == k))

/-- The stage's operator (first key) is an allowed operation. -/
def stageKeyAllowed (s : Stage) : Bool :=
  match firstKey s with
  | some k => decide (k ∈ ALLOWED_OPERATIONS)
  | none => false

/-- Every stage's operator (first key) is an allowed operation. -/
def allFirstKeysAllowed (p : Pipeline) : Bool :=
  p.all stageKeyAllowed

/-- No stage of the pipeline is the empty object. -/
def noEmptyStage (p : Pipeline) : Bool := p.all (fun s => !s.isEmpty)

def nonNullish : Value → Bool
  | .vNull => false
  | .vUndefined => false
  | _ => true

/-- The computation returned normally (did not throw). -/
def isOkE {α : Type} : Except String α → Bool
  | .ok _ => true
  | .error _ => false

/-- Stages on which one loop iteration of the sanitizer cannot throw:
a $sort parameter must not be null or undefined, a $lookup parameter
must be an object or an array whose pipeline property, when it is an
array, has no null or undefined elements. -/
def stageSafe (s : Stage) : Bool :=
  match s with
  | ("$sort", v) :: _ => nonNullish v
  | ("$lookup", v) :: _ =>
    match v with
    | .vObj _ | .vArr _ _ =>
      (match jsGet v "pipeline" with
       | .vArr elems _ => elems.all nonNullish
       | _ => true)
    | _ => false
  | _ => true

/-- The value of a stage's declared $limit is benign: a number or a
falsy value (so that the numeric coercion of the rewrite branch cannot
produce NaN). -/
def limitValueBenign (s : Stage) : Bool :=
  match s with
  | ("$limit", v) :: _ =>
    (match v with
     | .vNum _ => true
     | _ => !truthy v)
  | _ => true

/-- Stages of the fragment on which sanitization is the identity on
the considered prefix: the operator is one of the simple allowed
operators, or a $limit whose declared value passes the validity test
of the source. -/
def fragmentStage (s : Stage) : Bool :=
  match s with
  | (k, v) :: _ =>
    decide (k ∈ ["$match", "$project", "$unwind", "$addFields", "$set", "$count"])
      || (k == "$limit" && isValidLimit v)
  | [] => false

/-! Helper lemmas about one loop iteration (processStage) and the loop
(sanCore), followed by the theorems settling the claims. -/

set_option maxHeartbeats 2000000 in
theorem processStage_nonempty (s : Stage) (hl hs : Bool) (pushed s' : _) (hl1 hs1 : Bool)
    (h : processStage s hl hs = .ok (pushed, s', hl1, hs1)) :
    pushed.all (fun t => !t.isEmpty) = true := by
  match s with
  | [] =>
    simp only [processStage] at h
    cases h
    rfl
  | (k, v) :: rest =>
    simp only [processStage] at h
    repeat' split at h
    all_goals cases h
    all_goals simp_all [setStageFirstVal]

set_option maxHeartbeats 2000000 in
theorem processStage_hl_mono (s : Stage) (hl hs : Bool) (pushed s' : _) (hl1 hs1 : Bool)
    (h : processStage s hl hs = .ok (pushed, s', hl1, hs1)) (hhl : hl = true) :
    hl1 = true := by
  subst hhl
  match s with
  | [] =>
    simp only [processStage] at h
    cases h; rfl
  | (k, v) :: rest =>
    simp only [processStage] at h
    repeat' split at h
    all_goals cases h
    all_goals simp_all

set_option maxHeartbeats 2000000 in
theorem processStage_len (s : Stage) (hl hs : Bool) (pushed s' : _) (hl1 hs1 : Bool)
    (h : processStage s hl hs = .ok (pushed, s', hl1, hs1)) :
    pushed.length + (if hl then 1 else 0) ≤ 1 + (if hl1 then 1 else 0) := by
  match s with
  | [] =>
    simp only [processStage] at h
    cases h; simp
  | (k, v) :: rest =>
    simp only [processStage] at h
    repeat' split at h
    all_goals cases h
    all_goals (cases hl <;> simp_all)

set_option maxHeartbeats 2000000 in
theorem processStage_no_mutation (s : Stage) (hl hs : Bool) (pushed s' : _) (hl1 hs1 : Bool)
    (h : processStage s hl hs = .ok (pushed, s', hl1, hs1))
    (hk : firstKey s ≠ some "$lookup") : s' = s := by
  match s with
  | [] =>
    simp only [processStage] at h
    cases h; rfl
  | (k, v) :: rest =>
    simp only [firstKey, List.head?, Option.map] at hk
    simp only [processStage] at h
    repeat' split at h
    all_goals cases h
    all_goals simp_all


theorem find_setField (fs : List (String × Value)) (key : String) (v : Value) :
    (setField fs key v).find? (fun kv => kv.1 = key) = some (key, v) := by
  induction fs with
  | nil => simp [setField, List.find?]
  | cons kv rest ih =>
    by_cases hk : kv.1 = key
    · simp [setField, hk, List.find?]
    · simp [setField, hk, List.find?, ih]

theorem pipeline_strIndex : strIndexNum "pipeline" = none := by decide

theorem jsGet_setProp_pipeline (v nv w : Value)
    (h : setProp v "pipeline" nv = .ok w) : jsGet w "pipeline" = nv := by
  cases v <;> simp [setProp] at h <;> subst h <;>
    simp [jsGet, find_setField, pipeline_strIndex]

theorem scanForLimit_true (l : List Value) (h : scanForLimit l = .ok true) :
    l.any (fun e => totalFirstKey e == some "$limit") = true := by
  induction l with
  | nil => simp [scanForLimit] at h
  | cons v rest ih =>
    simp only [scanForLimit] at h
    split at h
    · cases h
    · rename_i k hk
      split at h
      · rename_i hlim
        simp [List.any_cons, totalFirstKey, hk, hlim]
      · simp [List.any_cons, ih h]

theorem lookupStageHasLimit_of_ne (k : String) (v : Value) (rest : Stage)
    (hk : k ≠ "$lookup") : lookupStageHasLimit ((k, v) :: rest) = true := by
  unfold lookupStageHasLimit
  split
  · rename_i heq
    injection heq with h1 h2
    injection h1 with h1a h1b
    exact absurd h1a hk
  · rfl

theorem lookupStageHasLimit_intro (v : Value) (rest : Stage)
    (hcond : ∀ elems props, jsGet v "pipeline" = .vArr elems props →
      elems.any (fun e => totalFirstKey e == some "$limit") = true) :
    lookupStageHasLimit (("$lookup", v) :: rest) = true := by
  simp only [lookupStageHasLimit]
  split
  · rename_i elems props harr
    exact hcond elems props harr
  · rfl

set_option maxHeartbeats 2000000 in
theorem processStage_lookup (s : Stage) (hl hs : Bool) (pushed s' : _) (hl1 hs1 : Bool)
    (h : processStage s hl hs = .ok (pushed, s', hl1, hs1)) :
    pushed.all lookupStageHasLimit = true := by
  match s with
  | [] =>
    simp only [processStage] at h
    cases h; rfl
  | (k, v) :: rest =>
    simp only [processStage] at h
    repeat' split at h
    all_goals cases h
    all_goals try (simp [List.all_cons, lookupStageHasLimit_of_ne, *]; done)
    -- remaining: the four sub-branches of the lookup case
    · -- pipeline property falsy: injected sub-pipeline [ $limit 1000 ]
      rename_i nv hset
      have hk : k = "$lookup" := by assumption
      subst hk
      simp only [setStageFirstVal, List.all_cons, List.all_nil, Bool.and_true]
      apply lookupStageHasLimit_intro
      intro elems' props' harr'
      rw [jsGet_setProp_pipeline _ _ _ hset] at harr'
      injection harr' with h1 h2
      rw [← h1]
      simp [totalFirstKey, firstKeyJs, jsKeys, Except.map, List.head?]
    · -- pipeline array already has a limit
      rename_i elems props harr hx hb hscan htrue
      subst htrue
      have hk : k = "$lookup" := by assumption
      subst hk
      simp only [List.all_cons, List.all_nil, Bool.and_true]
      apply lookupStageHasLimit_intro
      intro elems' props' harr'
      rw [harr] at harr'
      injection harr' with h1 h2
      exact h1 ▸ scanForLimit_true elems hscan
    · -- pipeline array lacked a limit: one appended
      rename_i nv hset
      have hk : k = "$lookup" := by assumption
      subst hk
      simp only [setStageFirstVal, List.all_cons, List.all_nil, Bool.and_true]
      apply lookupStageHasLimit_intro
      intro elems' props' harr'
      rw [jsGet_setProp_pipeline _ _ _ hset] at harr'
      injection harr' with h1 h2
      rw [← h1]
      simp [totalFirstKey, firstKeyJs, jsKeys, Except.map, List.head?]
    · -- pipeline property truthy but not an array
      rename_i hnotarr
      have hk : k = "$lookup" := by assumption
      subst hk
      simp only [List.all_cons, List.all_nil, Bool.and_true]
      apply lookupStageHasLimit_intro
      intro elems' props' harr'
      exact (hnotarr elems' props' harr').elim

theorem jsMin_benign (v : Value) (rest : Stage)
    (hben : limitValueBenign (("$limit", v) :: rest) = true) :
    ∃ q, jsMinConst (jsOr v (.vNum 100)) MAX_LIMIT = .vNum q ∧ q ≤ MAX_LIMIT := by
  have h100 : jsMinConst (Value.vNum 100) MAX_LIMIT = .vNum 100 := by
    have : min (100 : Rat) 1000 = 100 := by norm_num
    simp [jsMinConst, toNum, MAX_LIMIT, this]
  cases v with
  | vNum q =>
    by_cases hq : truthy (Value.vNum q)
    · refine ⟨min q MAX_LIMIT, ?_, min_le_right _ _⟩
      simp [jsOr, hq, jsMinConst, toNum]
    · refine ⟨100, ?_, by norm_num [MAX_LIMIT]⟩
      simp only [Bool.not_eq_true] at hq
      simp [jsOr, hq, h100]
  | vNaN => exact ⟨100, by simp [jsOr, truthy, h100], by norm_num [MAX_LIMIT]⟩
  | vNull => exact ⟨100, by simp [jsOr, truthy, h100], by norm_num [MAX_LIMIT]⟩
  | vUndefined => exact ⟨100, by simp [jsOr, truthy, h100], by norm_num [MAX_LIMIT]⟩
  | vStr s =>
    simp only [limitValueBenign, Bool.not_eq_true'] at hben
    exact ⟨100, by simp [jsOr, hben, h100], by norm_num [MAX_LIMIT]⟩
  | vBool b =>
    simp only [limitValueBenign, Bool.not_eq_true'] at hben
    exact ⟨100, by simp [jsOr, hben, h100], by norm_num [MAX_LIMIT]⟩
  | vObj fields => simp [limitValueBenign, truthy] at hben
  | vArr elems props => simp [limitValueBenign, truthy] at hben

set_option maxHeartbeats 2000000 in
theorem processStage_bounded (s : Stage) (hl hs : Bool) (pushed s' : _) (hl1 hs1 : Bool)
    (hben : limitValueBenign s = true)
    (h : processStage s hl hs = .ok (pushed, s', hl1, hs1)) (hset : hl1 = true) :
    hl = true ∨ boundedInvariant pushed = true := by
  match s with
  | [] =>
    simp only [processStage] at h
    cases h
    exact Or.inl hset
  | (k, v) :: rest =>
    simp only [processStage] at h
    repeat' split at h
    all_goals cases h
    all_goals try (exact Or.inl hset)
    · -- valid declared limit kept as-is
      have hk : k = "$limit" := by assumption
      subst hk
      have hval : isValidLimit v = true := by assumption
      right
      cases v
      all_goals simp [isValidLimit] at hval
      rename_i q
      simp [boundedInvariant, containsSafeLimit, isSafeLimitStage, hval.2]
    · -- declared limit rewritten to the clamped fallback
      have hk : k = "$limit" := by assumption
      subst hk
      right
      obtain ⟨q, hq, hle⟩ := jsMin_benign v rest hben
      simp [boundedInvariant, containsSafeLimit, isSafeLimitStage, hq, hle]
    · -- group stage with the injected overflow limit
      have hk : k = "$group" := by assumption
      subst hk
      right
      simp [boundedInvariant, hasGroupThenOverflow, isGroupStage, isOverflowLimitStage,
        firstKey, MAX_GROUP_SIZE]

theorem jsKeys_nonNullish (v : Value) (h : nonNullish v = true) :
    ∃ l, jsKeys v = .ok l := by
  cases v <;> simp_all [nonNullish, jsKeys]

theorem scanForLimit_safe (l : List Value) (h : l.all nonNullish = true) :
    ∃ b, scanForLimit l = .ok b := by
  induction l with
  | nil => exact ⟨false, rfl⟩
  | cons v rest ih =>
    simp only [List.all_cons, Bool.and_eq_true] at h
    obtain ⟨l1, hv⟩ := jsKeys_nonNullish v h.1
    obtain ⟨b, hb⟩ := ih h.2
    by_cases hk : l1.head? = some "$limit"
    · exact ⟨true, by simp [scanForLimit, firstKeyJs, hv, Except.map, hk]⟩
    · exact ⟨b, by simp [scanForLimit, firstKeyJs, hv, Except.map, hk, hb]⟩

set_option maxHeartbeats 2000000 in
theorem processStage_safe (s : Stage) (hl hs : Bool) (hsafe : stageSafe s = true) :
    isOkE (processStage s hl hs) = true := by
  match s with
  | [] => rfl
  | (k, v) :: rest =>
    simp only [processStage]
    repeat' split
    all_goals try rfl
    · -- jsKeys threw inside the $sort branch
      rename_i ex e herr
      have hk : k = "$sort" := by assumption
      subst hk
      simp only [stageSafe] at hsafe
      obtain ⟨l1, hv⟩ := jsKeys_nonNullish v hsafe
      simp [hv] at herr
    · -- $lookup parameter is null
      have hk : k = "$lookup" := by assumption
      subst hk
      simp [stageSafe] at hsafe
    · -- $lookup parameter is undefined
      have hk : k = "$lookup" := by assumption
      subst hk
      simp [stageSafe] at hsafe
    · -- setProp threw while injecting the sub-pipeline
      rename_i ex e hserr
      have hk : k = "$lookup" := by assumption
      subst hk
      cases v <;> simp_all [stageSafe, setProp]
    · -- scanForLimit threw over the sub-pipeline elements
      rename_i elems props harr ex e hserr
      have hk : k = "$lookup" := by assumption
      subst hk
      have hall : elems.all nonNullish = true := by
        cases v <;> simp_all [stageSafe]
      obtain ⟨b, hb⟩ := scanForLimit_safe elems hall
      simp [hb] at hserr
    · -- setProp threw while appending the sub-pipeline limit
      rename_i ex e hserr
      have hk : k = "$lookup" := by assumption
      subst hk
      cases v <;> simp_all [stageSafe, setProp]

set_option maxHeartbeats 2000000 in
theorem processStage_fragment (s : Stage) (hl hs : Bool) (hfrag : fragmentStage s = true) :
    processStage s hl hs = .ok ([s], s, hl || (firstKey s == some "$limit"), hs) := by
  match s with
  | [] => simp [fragmentStage] at hfrag
  | (k, v) :: rest =>
    simp only [fragmentStage, Bool.or_eq_true, Bool.and_eq_true, beq_iff_eq,
      decide_eq_true_eq, List.mem_cons, List.not_mem_nil, or_false] at hfrag
    rcases hfrag with (h | h | h | h | h | h) | ⟨hk, hval⟩
    all_goals try (subst h; simp [processStage, firstKey, DANGEROUS_OPERATIONS, ALLOWED_OPERATIONS])
    subst hk
    simp [processStage, hval, firstKey, DANGEROUS_OPERATIONS, ALLOWED_OPERATIONS]

set_option maxHeartbeats 2000000 in
theorem processStage_allowed (s : Stage) (hl hs : Bool) (pushed s' : _) (hl1 hs1 : Bool)
    (h : processStage s hl hs = .ok (pushed, s', hl1, hs1)) :
    pushed.all stageKeyAllowed = true := by
  match s with
  | [] =>
    simp only [processStage] at h
    cases h; rfl
  | (k, v) :: rest =>
    simp only [processStage] at h
    repeat' split at h
    all_goals cases h
    all_goals simp_all [stageKeyAllowed, firstKey, setStageFirstVal, ALLOWED_OPERATIONS]
    all_goals tauto


theorem sanCore_all (pred : Stage → Bool)
    (hstep : ∀ s hl hs pushed s' hl1 hs1,
      processStage s hl hs = .ok (pushed, s', hl1, hs1) → pushed.all pred = true) :
    ∀ (l : List Stage) (hl hs : Bool) (out ms : List Stage) (hl' hs' : Bool),
      sanCore l hl hs = .ok (out, ms, hl', hs') → out.all pred = true := by
  intro l
  induction l with
  | nil =>
    intro hl hs out ms hl' hs' h
    simp only [sanCore] at h
    cases h
    rfl
  | cons s rest ih =>
    intro hl hs out ms hl' hs' h
    simp only [sanCore] at h
    cases hp : processStage s hl hs with
    | error e => simp only [hp] at h; exact Except.noConfusion h
    | ok r =>
      obtain ⟨pushed, s', hl1, hs1⟩ := r
      simp only [hp] at h
      cases hr : sanCore rest hl1 hs1 with
      | error e => rw [hr] at h; cases h
      | ok r2 =>
        obtain ⟨out2, ms2, hl2, hs2⟩ := r2
        rw [hr] at h
        cases h
        simp only [List.all_append, Bool.and_eq_true]
        exact ⟨hstep _ _ _ _ _ _ _ hp, ih _ _ _ _ _ _ hr⟩

theorem sanCore_hl_mono :
    ∀ (l : List Stage) (hl hs : Bool) (out ms : List Stage) (hl' hs' : Bool),
      sanCore l hl hs = .ok (out, ms, hl', hs') → hl = true → hl' = true := by
  intro l
  induction l with
  | nil =>
    intro hl hs out ms hl' hs' h hh
    simp only [sanCore] at h
    cases h
    exact hh
  | cons s rest ih =>
    intro hl hs out ms hl' hs' h hh
    simp only [sanCore] at h
    cases hp : processStage s hl hs with
    | error e => simp only [hp] at h; exact Except.noConfusion h
    | ok r =>
      obtain ⟨pushed, s', hl1, hs1⟩ := r
      simp only [hp] at h
      cases hr : sanCore rest hl1 hs1 with
      | error e => rw [hr] at h; cases h
      | ok r2 =>
        obtain ⟨out2, ms2, hl2, hs2⟩ := r2
        rw [hr] at h
        cases h
        exact ih _ _ _ _ _ _ hr (processStage_hl_mono _ _ _ _ _ _ _ hp hh)

theorem sanCore_len :
    ∀ (l : List Stage) (hl hs : Bool) (out ms : List Stage) (hl' hs' : Bool),
      sanCore l hl hs = .ok (out, ms, hl', hs') →
      out.length + (if hl then 1 else 0) ≤ l.length + (if hl' then 1 else 0) := by
  intro l
  induction l with
  | nil =>
    intro hl hs out ms hl' hs' h
    simp only [sanCore] at h
    cases h
    simp
  | cons s rest ih =>
    intro hl hs out ms hl' hs' h
    simp only [sanCore] at h
    cases hp : processStage s hl hs with
    | error e => simp only [hp] at h; exact Except.noConfusion h
    | ok r =>
      obtain ⟨pushed, s', hl1, hs1⟩ := r
      simp only [hp] at h
      cases hr : sanCore rest hl1 hs1 with
      | error e => rw [hr] at h; cases h
      | ok r2 =>
        obtain ⟨out2, ms2, hl2, hs2⟩ := r2
        rw [hr] at h
        cases h
        have h1 := processStage_len _ _ _ _ _ _ _ hp
        have h2 := ih _ _ _ _ _ _ hr
        simp only [List.length_append, List.length_cons]
        omega

theorem sanCore_no_mutation :
    ∀ (l : List Stage) (hl hs : Bool) (out ms : List Stage) (hl' hs' : Bool),
      (∀ s ∈ l, firstKey s ≠ some "$lookup") →
      sanCore l hl hs = .ok (out, ms, hl', hs') → ms = l := by
  intro l
  induction l with
  | nil =>
    intro hl hs out ms hl' hs' _ h
    simp only [sanCore] at h
    cases h
    rfl
  | cons s rest ih =>
    intro hl hs out ms hl' hs' hnk h
    simp only [sanCore] at h
    cases hp : processStage s hl hs with
    | error e => simp only [hp] at h; exact Except.noConfusion h
    | ok r =>
      obtain ⟨pushed, s', hl1, hs1⟩ := r
      simp only [hp] at h
      cases hr : sanCore rest hl1 hs1 with
      | error e => rw [hr] at h; cases h
      | ok r2 =>
        obtain ⟨out2, ms2, hl2, hs2⟩ := r2
        rw [hr] at h
        cases h
        have hseq := processStage_no_mutation _ _ _ _ _ _ _ hp (hnk s (List.mem_cons_self s rest))
        have hms := ih _ _ _ _ _ _ (fun t ht => hnk t (List.mem_cons_of_mem s ht)) hr
        rw [hseq, hms]

theorem sanCore_safe :
    ∀ (l : List Stage) (hl hs : Bool),
      (∀ s ∈ l, stageSafe s = true) → isOkE (sanCore l hl hs) = true := by
  intro l
  induction l with
  | nil => intro hl hs _; rfl
  | cons s rest ih =>
    intro hl hs hsf
    have h1 := processStage_safe s hl hs (hsf s (List.mem_cons_self s rest))
    cases hall : sanCore (s :: rest) hl hs with
    | ok r => rfl
    | error e =>
      exfalso
      simp only [sanCore] at hall
      cases hp : processStage s hl hs with
      | error e2 => rw [hp] at h1; cases h1
      | ok r =>
        obtain ⟨pushed, s', hl1, hs1⟩ := r
        simp only [hp] at hall
        have h2 := ih hl1 hs1 (fun t ht => hsf t (List.mem_cons_of_mem s ht))
        cases hr : sanCore rest hl1 hs1 with
        | error e3 => rw [hr] at h2; cases h2
        | ok r2 =>
          obtain ⟨out2, ms2, hl2, hs2⟩ := r2
          simp only [hr] at hall
          exact Except.noConfusion hall

theorem hasGroupThenOverflow_append_right :
    ∀ (l l' : Pipeline), hasGroupThenOverflow l = true →
      hasGroupThenOverflow (l ++ l') = true
  | [], _, h => by simp [hasGroupThenOverflow] at h
  | [s], _, h => by simp [hasGroupThenOverflow] at h
  | s1 :: s2 :: rest, l', h => by
    simp only [hasGroupThenOverflow, Bool.or_eq_true] at h
    simp only [List.cons_append, hasGroupThenOverflow, Bool.or_eq_true]
    rcases h with h | h
    · exact Or.inl h
    · exact Or.inr (by
        have := hasGroupThenOverflow_append_right (s2 :: rest) l' h
        simpa using this)

theorem hasGroupThenOverflow_append_left :
    ∀ (l l' : Pipeline), hasGroupThenOverflow l' = true →
      hasGroupThenOverflow (l ++ l') = true
  | [], l', h => by simpa using h
  | [s], l', h => by
    cases l' with
    | nil => simp [hasGroupThenOverflow] at h
    | cons b t =>
      simp only [List.cons_append, List.nil_append, hasGroupThenOverflow, Bool.or_eq_true]
      exact Or.inr h
  | s1 :: s2 :: rest, l', h => by
    simp only [List.cons_append, hasGroupThenOverflow, Bool.or_eq_true]
    refine Or.inr ?_
    have := hasGroupThenOverflow_append_left (s2 :: rest) l' h
    simpa using this

theorem boundedInvariant_append_right (l l' : Pipeline)
    (h : boundedInvariant l = true) : boundedInvariant (l ++ l') = true := by
  simp only [boundedInvariant, Bool.or_eq_true, containsSafeLimit, List.any_append] at h ⊢
  rcases h with h | h
  · exact Or.inl (Or.inl h)
  · exact Or.inr (hasGroupThenOverflow_append_right l l' h)

theorem boundedInvariant_append_left (l l' : Pipeline)
    (h : boundedInvariant l' = true) : boundedInvariant (l ++ l') = true := by
  simp only [boundedInvariant, Bool.or_eq_true, containsSafeLimit, List.any_append] at h ⊢
  rcases h with h | h
  · exact Or.inl (Or.inr h)
  · exact Or.inr (hasGroupThenOverflow_append_left l l' h)

theorem sanCore_bounded :
    ∀ (l : List Stage) (hl hs : Bool) (out ms : List Stage) (hl' hs' : Bool),
      (∀ s ∈ l, limitValueBenign s = true) →
      sanCore l hl hs = .ok (out, ms, hl', hs') → hl' = true →
      hl = true ∨ boundedInvariant out = true := by
  intro l
  induction l with
  | nil =>
    intro hl hs out ms hl' hs' _ h hh
    simp only [sanCore] at h
    cases h
    exact Or.inl hh
  | cons s rest ih =>
    intro hl hs out ms hl' hs' hben h hh
    simp only [sanCore] at h
    cases hp : processStage s hl hs with
    | error e => simp only [hp] at h; exact Except.noConfusion h
    | ok r =>
      obtain ⟨pushed, s', hl1, hs1⟩ := r
      simp only [hp] at h
      cases hr : sanCore rest hl1 hs1 with
      | error e => rw [hr] at h; cases h
      | ok r2 =>
        obtain ⟨out2, ms2, hl2, hs2⟩ := r2
        rw [hr] at h
        cases h
        rcases ih _ _ _ _ _ _ (fun t ht => hben t (List.mem_cons_of_mem s ht)) hr hh with
          h1 | h1
        · rcases processStage_bounded s hl hs pushed s' hl1 hs1
            (hben s (List.mem_cons_self s rest)) hp h1 with h2 | h2
          · exact Or.inl h2
          · exact Or.inr (boundedInvariant_append_right _ _ h2)
        · exact Or.inr (boundedInvariant_append_left _ _ h1)

theorem sanCore_fragment :
    ∀ (l : List Stage) (hl hs : Bool), (∀ s ∈ l, fragmentStage s = true) →
      sanCore l hl hs =
        .ok (l, l, hl || l.any (fun s => firstKey s == some "$limit"), hs)
  | [], hl, hs, _ => by simp [sanCore]
  | s :: rest, hl, hs, hf => by
    have hp := processStage_fragment s hl hs (hf s (List.mem_cons_self s rest))
    have hrest := sanCore_fragment rest (hl || (firstKey s == some "$limit")) hs
      (fun t ht => hf t (List.mem_cons_of_mem s ht))
    simp only [sanCore, hp, hrest]
    simp [List.any_cons, Bool.or_assoc]

theorem sanitizeRun_ok (p : Pipeline) (out ms : List Stage) (hl' hs' : Bool)
    (hc : sanCore (p.take MAX_PIPELINE_STAGES) false false = .ok (out, ms, hl', hs')) :
    sanitizeRun p =
      .ok ((if hl' then out else out ++ [[("$limit", .vNum MAX_LIMIT)]]),
        ms ++ p.drop MAX_PIPELINE_STAGES) := by
  unfold sanitizeRun
  rw [hc]

theorem sanitizeRun_error (p : Pipeline) (e : String)
    (hc : sanCore (p.take MAX_PIPELINE_STAGES) false false = .error e) :
    sanitizeRun p = .error e := by
  unfold sanitizeRun
  rw [hc]

theorem trailing_boundedInvariant :
    boundedInvariant [[("$limit", Value.vNum MAX_LIMIT)]] = true := by decide

/-- C1 (amended): for every input pipeline whose considered $limit stages
carry a declared value that is a number or falsy, every successful output of
sanitizePipeline contains a $limit stage with a numeric value at most
MAX_LIMIT (1000), or a $group stage immediately followed by a $limit
MAX_GROUP_SIZE (10000) stage.  The claim as stated fails when a $limit value
is a truthy non-number: the rewrite then produces a NaN-valued limit (see the
counterexample). -/
theorem c1_output_contains_bounded_limit (p q : Pipeline)
    (hben : ∀ s ∈ p.take MAX_PIPELINE_STAGES, limitValueBenign s = true)
    (h : sanitizePipeline p = .ok q) : boundedInvariant q = true := by
  unfold sanitizePipeline at h
  cases hc : sanCore (p.take MAX_PIPELINE_STAGES) false false with
  | error e => rw [sanitizeRun_error p e hc] at h; cases h
  | ok r =>
    obtain ⟨out, ms, hl', hs'⟩ := r
    rw [sanitizeRun_ok p out ms hl' hs' hc] at h
    simp only [Except.map] at h
    cases h
    cases hl' with
    | true =>
      rcases sanCore_bounded _ _ _ _ _ _ _ hben hc rfl with h1 | h1
      · cases h1
      · simpa using h1
    | false =>
      simpa using boundedInvariant_append_left out _ trailing_boundedInvariant

/-- C1 witness: the amended theorem applied to the concrete one-stage $match
pipeline, whose output is the stage followed by the trailing limit 1000. -/
theorem c1_witness :
    boundedInvariant [[("$match", Value.vObj [])], [("$limit", Value.vNum 1000)]] = true :=
  c1_output_contains_bounded_limit [[("$match", Value.vObj [])]] _ (by decide) rfl

/-- C1 counterexample: the input with the single stage with key $limit and
the string value abc sanitizes to a $limit stage whose value is NaN, so the
output contains neither a numerically bounded limit nor a group-overflow
pair, refuting the claim as stated. -/
theorem c1_counterexample :
    sanitizePipeline [[("$limit", Value.vStr "abc")]] =
      .ok [[("$limit", Value.vNaN)]] ∧
    boundedInvariant [[("$limit", Value.vNaN)]] = false := ⟨rfl, rfl⟩

theorem fragmentStage_trailing :
    fragmentStage [("$limit", Value.vNum MAX_LIMIT)] = true := by decide

/-- C2 (amended): sanitizePipeline is not idempotent in general (see the
counterexample); it is idempotent on pipelines whose first
MAX_PIPELINE_STAGES stages each carry one of the simple allowed operators
($match, $project, $unwind, $addFields, $set, $count) or a $limit whose
declared value is a positive number at most MAX_LIMIT: re-sanitizing any
successful output of such an input reproduces it exactly. -/
theorem c2_idempotent_on_fragment (p q : Pipeline)
    (hfrag : ∀ s ∈ p.take MAX_PIPELINE_STAGES, fragmentStage s = true)
    (h : sanitizePipeline p = .ok q) : sanitizePipeline q = .ok q := by
  have hcore := sanCore_fragment (p.take MAX_PIPELINE_STAGES) false false hfrag
  have hlen : (p.take MAX_PIPELINE_STAGES).length ≤ MAX_PIPELINE_STAGES := by
    simp [min_le_right]
  unfold sanitizePipeline at h
  rw [sanitizeRun_ok p _ _ _ _ hcore] at h
  simp only [Except.map, Bool.false_or] at h
  cases h
  by_cases hany :
      (p.take MAX_PIPELINE_STAGES).any (fun s => firstKey s == some "$limit") = true
  · rw [if_pos hany]
    unfold sanitizePipeline
    rw [sanitizeRun_ok _ _ _ _ _ (by
      rw [List.take_of_length_le hlen]
      exact sanCore_fragment _ false false hfrag)]
    simp only [Except.map, Bool.false_or]
    rw [if_pos hany]
  · rw [if_neg hany]
    rw [Bool.not_eq_true] at hany
    by_cases hfull : (p.take MAX_PIPELINE_STAGES).length = MAX_PIPELINE_STAGES
    · have htake : ((p.take MAX_PIPELINE_STAGES) ++
          [[("$limit", Value.vNum MAX_LIMIT)]]).take MAX_PIPELINE_STAGES =
          p.take MAX_PIPELINE_STAGES := by
        rw [List.take_append_eq_append_take, List.take_of_length_le hlen, hfull,
          Nat.sub_self]
        simp
      unfold sanitizePipeline
      rw [sanitizeRun_ok _ _ _ _ _ (by rw [htake]; exact sanCore_fragment _ false false hfrag)]
      simp only [Except.map, Bool.false_or]
      rw [if_neg (by simp [hany])]
    · have hlt : (p.take MAX_PIPELINE_STAGES).length + 1 ≤ MAX_PIPELINE_STAGES := by omega
      have htake : ((p.take MAX_PIPELINE_STAGES) ++
          [[("$limit", Value.vNum MAX_LIMIT)]]).take MAX_PIPELINE_STAGES =
          (p.take MAX_PIPELINE_STAGES) ++ [[("$limit", Value.vNum MAX_LIMIT)]] :=
        List.take_of_length_le (by simpa using hlt)
      have hfrag2 : ∀ s ∈ (p.take MAX_PIPELINE_STAGES) ++
          [[("$limit", Value.vNum MAX_LIMIT)]], fragmentStage s = true := by
        intro s hs
        rcases List.mem_append.mp hs with hs | hs
        · exact hfrag s hs
        · simp only [List.mem_singleton] at hs
          subst hs
          exact fragmentStage_trailing
      unfold sanitizePipeline
      rw [sanitizeRun_ok _ _ _ _ _ (by rw [htake]; exact sanCore_fragment _ false false hfrag2)]
      simp only [Except.map, Bool.false_or]
      rw [if_pos (by simp [List.any_append, firstKey])]

/-- C2 counterexample: sanitizing the one-stage $group pipeline yields the
group stage followed by the injected $limit 10000; re-sanitizing that output
clamps the 10000 to 1000 and appends a further limit stage, so the output is
not a fixed point, refuting idempotence as claimed. -/
theorem c2_counterexample :
    sanitizePipeline [[("$group", Value.vObj [("_id", Value.vStr "$mode")])]] =
      .ok [[("$group", Value.vObj [("_id", Value.vStr "$mode")])],
           [("$limit", Value.vNum 10000)]] ∧
    sanitizePipeline [[("$group", Value.vObj [("_id", Value.vStr "$mode")])],
        [("$limit", Value.vNum 10000)]] ≠
      .ok [[("$group", Value.vObj [("_id", Value.vStr "$mode")])],
           [("$limit", Value.vNum 10000)]] := by
  refine ⟨rfl, ?_⟩
  intro hcon
  have h2 : sanitizePipeline [[("$group", Value.vObj [("_id", Value.vStr "$mode")])],
      [("$limit", Value.vNum 10000)]] =
      .ok [[("$group", Value.vObj [("_id", Value.vStr "$mode")])],
           [("$limit", Value.vNum 10000)], [("$limit", Value.vNum 1000)]] := rfl
  rw [h2] at hcon
  simp at hcon

/-- C2 witness: the amended idempotence theorem applied to the concrete
one-stage $match pipeline. -/
theorem c2_witness :
    sanitizePipeline [[("$match", Value.vObj [])], [("$limit", Value.vNum 1000)]] =
      .ok [[("$match", Value.vObj [])], [("$limit", Value.vNum 1000)]] :=
  c2_idempotent_on_fragment [[("$match", Value.vObj [])]] _ (by decide) rfl

theorem trailing_lookupStageHasLimit :
    lookupStageHasLimit [("$limit", Value.vNum MAX_LIMIT)] = true := by decide

/-- C3 (amended): in every successful output of sanitizePipeline, every
$lookup stage whose pipeline parameter is an array carries a $limit stage
inside that array (of whatever value; the injected one is 1000).  The claim
as stated also promises a bounded non-empty sub-pipeline for non-array
pipeline parameters, which the code leaves untouched (see the
counterexample). -/
theorem c3_lookup_arrays_bounded (p q : Pipeline) (h : sanitizePipeline p = .ok q) :
    lookupArraysHaveLimit q = true := by
  unfold sanitizePipeline at h
  cases hc : sanCore (p.take MAX_PIPELINE_STAGES) false false with
  | error e => rw [sanitizeRun_error p e hc] at h; cases h
  | ok r =>
    obtain ⟨out, ms, hl', hs'⟩ := r
    rw [sanitizeRun_ok p out ms hl' hs' hc] at h
    simp only [Except.map] at h
    cases h
    have hout := sanCore_all lookupStageHasLimit
      (fun s hl hs pushed s' hl1 hs1 hp => processStage_lookup s hl hs pushed s' hl1 hs1 hp)
      _ _ _ _ _ _ _ hc
    cases hl' with
    | true => simpa [lookupArraysHaveLimit] using hout
    | false =>
      have hred : (if (false : Bool) = true then out
          else out ++ [[("$limit", Value.vNum MAX_LIMIT)]]) =
          out ++ [[("$limit", Value.vNum MAX_LIMIT)]] := rfl
      rw [hred]
      have htr := trailing_lookupStageHasLimit
      simp only [lookupArraysHaveLimit, List.all_append, List.all_cons, List.all_nil,
        Bool.and_true, Bool.and_eq_true] at hout htr ⊢
      exact ⟨hout, htr⟩

/-- C3 witness: the amended theorem applied to a lookup stage without a
pipeline parameter, for which the code injects the sub-pipeline with the
$limit 1000 stage. -/
theorem c3_witness :
    lookupArraysHaveLimit [[("$lookup", Value.vObj [("from", Value.vStr "x"),
      ("pipeline", Value.vArr [Value.vObj [("$limit", Value.vNum 1000)]] [])])],
      [("$limit", Value.vNum 1000)]] = true :=
  c3_lookup_arrays_bounded [[("$lookup", Value.vObj [("from", Value.vStr "x")])]] _ rfl

/-- C3 counterexample: a $lookup stage whose pipeline parameter is the
number 5 (present, truthy, not an array) passes through unchanged, so the
output lookup stage has no nested sub-pipeline with a bounded limit,
refuting the claim as stated. -/
theorem c3_counterexample :
    sanitizePipeline [[("$lookup", Value.vObj [("pipeline", Value.vNum 5)])]] =
      .ok [[("$lookup", Value.vObj [("pipeline", Value.vNum 5)])],
           [("$limit", Value.vNum 1000)]] ∧
    claimLookupSafe [[("$lookup", Value.vObj [("pipeline", Value.vNum 5)])],
           [("$limit", Value.vNum 1000)]] = false := ⟨rfl, rfl⟩

/-- C4 (code bug, evaluation at the failing input): for the declared limit
value -5 the source computes Math.min(-5 or-else 100, 1000) = -5, because a
negative number is truthy, and keeps the negative limit instead of the
documented fallback of 100 clamped to the cap. -/
theorem c4_negative_limit_kept :
    sanitizePipeline [[("$limit", Value.vNum (-5))]] =
      .ok [[("$limit", Value.vNum (-5))]] := rfl

theorem trailing_stageKeyAllowed :
    stageKeyAllowed [("$limit", Value.vNum MAX_LIMIT)] = true := by decide

/-- C5 (amended): in every successful output of sanitizePipeline, every
stage's operator — its first key — is one of the ALLOWED_OPERATIONS, so no
stage has a Denied or Unknown operator in key position.  The claim as
stated further asserts that no output stage carries a denied operator as
any key, which fails for multi-key stages (see the counterexample). -/
theorem c5_first_keys_allowed (p q : Pipeline) (h : sanitizePipeline p = .ok q) :
    allFirstKeysAllowed q = true := by
  unfold sanitizePipeline at h
  cases hc : sanCore (p.take MAX_PIPELINE_STAGES) false false with
  | error e => rw [sanitizeRun_error p e hc] at h; cases h
  | ok r =>
    obtain ⟨out, ms, hl', hs'⟩ := r
    rw [sanitizeRun_ok p out ms hl' hs' hc] at h
    simp only [Except.map] at h
    cases h
    have hout := sanCore_all stageKeyAllowed
      (fun s hl hs pushed s' hl1 hs1 hp => processStage_allowed s hl hs pushed s' hl1 hs1 hp)
      _ _ _ _ _ _ _ hc
    cases hl' with
    | true => simpa [allFirstKeysAllowed] using hout
    | false =>
      have hred : (if (false : Bool) = true then out
          else out ++ [[("$limit", Value.vNum MAX_LIMIT)]]) =
          out ++ [[("$limit", Value.vNum MAX_LIMIT)]] := rfl
      rw [hred]
      have htr := trailing_stageKeyAllowed
      simp only [allFirstKeysAllowed, List.all_append, List.all_cons, List.all_nil,
        Bool.and_true, Bool.and_eq_true] at hout htr ⊢
      exact ⟨hout, htr⟩

/-- C5 witness: the amended theorem applied to the one-stage $out pipeline,
whose output is the single trailing $limit 1000 stage. -/
theorem c5_witness :
    allFirstKeysAllowed [[("$limit", Value.vNum 1000)]] = true :=
  c5_first_keys_allowed [[("$out", Value.vStr "coll")]] _ rfl

/-- C5 counterexample: a two-key stage whose first key is $match and whose
second key is $out survives sanitization unchanged, so the output carries
the denied operator $out as a key, refuting the claim as stated. -/
theorem c5_counterexample :
    sanitizePipeline [[("$match", Value.vObj []), ("$out", Value.vStr "coll")]] =
      .ok [[("$match", Value.vObj []), ("$out", Value.vStr "coll")],
           [("$limit", Value.vNum 1000)]] ∧
    carriesKey [[("$match", Value.vObj []), ("$out", Value.vStr "coll")],
           [("$limit", Value.vNum 1000)]] "$out" = true := ⟨rfl, rfl⟩

/-- C6 (amended): no stage of a successful output of sanitizePipeline is
the empty object, so zero-key input stages are indeed dropped.  The other
half of the claim — that multi-key stages are dropped — fails: a multi-key
stage is classified by its first key alone and kept when that key is
allowed (see the counterexample). -/
theorem c6_no_empty_stage_in_output (p q : Pipeline) (h : sanitizePipeline p = .ok q) :
    noEmptyStage q = true := by
  unfold sanitizePipeline at h
  cases hc : sanCore (p.take MAX_PIPELINE_STAGES) false false with
  | error e => rw [sanitizeRun_error p e hc] at h; cases h
  | ok r =>
    obtain ⟨out, ms, hl', hs'⟩ := r
    rw [sanitizeRun_ok p out ms hl' hs' hc] at h
    simp only [Except.map] at h
    cases h
    have hout := sanCore_all (fun t => !t.isEmpty)
      (fun s hl hs pushed s' hl1 hs1 hp => processStage_nonempty s hl hs pushed s' hl1 hs1 hp)
      _ _ _ _ _ _ _ hc
    cases hl' with
    | true => simpa [noEmptyStage] using hout
    | false =>
      have hred : (if (false : Bool) = true then out
          else out ++ [[("$limit", Value.vNum MAX_LIMIT)]]) =
          out ++ [[("$limit", Value.vNum MAX_LIMIT)]] := rfl
      rw [hred]
      simp only [noEmptyStage, List.all_append, List.all_cons, List.all_nil,
        Bool.and_true, Bool.and_eq_true] at hout ⊢
      exact ⟨hout, by decide⟩

/-- C6 witness: the amended theorem applied to a pipeline whose first
stage is the empty object; the empty stage is absent from the output. -/
theorem c6_witness :
    noEmptyStage [[("$match", Value.vObj [])], [("$limit", Value.vNum 1000)]] = true :=
  c6_no_empty_stage_in_output [[], [("$match", Value.vObj [])]] _ rfl

/-- C6 counterexample: a stage with the two keys $match and $foo is kept
verbatim in the output (its first key is allowed), refuting the claim that
multi-key stages are treated as Unknown and dropped. -/
theorem c6_counterexample :
    sanitizePipeline [[("$match", Value.vObj [("a", Value.vNum 1)]), ("$foo", Value.vNum 2)]] =
      .ok [[("$match", Value.vObj [("a", Value.vNum 1)]), ("$foo", Value.vNum 2)],
           [("$limit", Value.vNum 1000)]] ∧
    ([("$match", Value.vObj [("a", Value.vNum 1)]), ("$foo", Value.vNum 2)] : Stage).length = 2 ∧
    ([("$match", Value.vObj [("a", Value.vNum 1)]), ("$foo", Value.vNum 2)] : Stage) ∈
      [[("$match", Value.vObj [("a", Value.vNum 1)]), ("$foo", Value.vNum 2)],
       [("$limit", Value.vNum 1000)]] :=
  ⟨rfl, rfl, List.mem_cons_self _ _⟩

/-- C7 (amended): sanitizePipeline returns normally on every input whose
considered stages are safe: every $sort parameter is non-nullish and every
$lookup parameter is an object or array whose pipeline property, when an
array, has no nullish elements.  The claim of totality on all inputs fails:
Object.keys(null) throws for a $sort stage with a null parameter (see the
counterexample). -/
theorem c7_total_on_safe_stages (p : Pipeline)
    (hsafe : ∀ s ∈ p.take MAX_PIPELINE_STAGES, stageSafe s = true) :
    isOkE (sanitizePipeline p) = true := by
  have hcore := sanCore_safe (p.take MAX_PIPELINE_STAGES) false false hsafe
  cases hc : sanCore (p.take MAX_PIPELINE_STAGES) false false with
  | error e => rw [hc] at hcore; cases hcore
  | ok r =>
    obtain ⟨out, ms, hl', hs'⟩ := r
    unfold sanitizePipeline
    rw [sanitizeRun_ok p out ms hl' hs' hc]
    rfl

/-- C7 witness: the amended totality theorem applied to a concrete $sort
stage with an object parameter. -/
theorem c7_witness :
    isOkE (sanitizePipeline [[("$sort", Value.vObj [("score", Value.vNum (-1))])]]) = true :=
  c7_total_on_safe_stages [[("$sort", Value.vObj [("score", Value.vNum (-1))])]] (by decide)

/-- C7 counterexample: on the stage with key $sort and the value null the
sanitizer throws (Object.keys of null), refuting the claim that the error
branch is unreachable. -/
theorem c7_counterexample :
    isOkE (sanitizePipeline [[("$sort", Value.vNull)]]) = false := rfl

/-- C8 (amended): when no considered stage has the operator $lookup and
the call succeeds, the caller's input pipeline is unchanged after the call.
The purity claim fails in general: the $lookup branch assigns the pipeline
property on the caller's own parameter object (see the counterexample). -/
theorem c8_no_mutation_without_lookup (p m : Pipeline)
    (hk : ∀ s ∈ p.take MAX_PIPELINE_STAGES, firstKey s ≠ some "$lookup")
    (h : pipelineAfterSanitize p = .ok m) : m = p := by
  unfold pipelineAfterSanitize at h
  cases hc : sanCore (p.take MAX_PIPELINE_STAGES) false false with
  | error e => rw [sanitizeRun_error p e hc] at h; cases h
  | ok r =>
    obtain ⟨out, ms, hl', hs'⟩ := r
    rw [sanitizeRun_ok p out ms hl' hs' hc] at h
    simp only [Except.map] at h
    cases h
    rw [sanCore_no_mutation _ _ _ _ _ _ _ hk hc]
    exact List.take_append_drop _ p

/-- C8 witness: the amended no-mutation theorem applied to the concrete
one-stage $match pipeline. -/
theorem c8_witness :
    ([[("$match", Value.vObj [])]] : Pipeline) = [[("$match", Value.vObj [])]] :=
  c8_no_mutation_without_lookup [[("$match", Value.vObj [])]] _ (by decide) rfl

/-- C8 counterexample: after sanitizing a $lookup stage that lacks a
pipeline parameter, the caller's input object has gained the property
pipeline = [ $limit 1000 ], so the input is not left unchanged, refuting
the purity claim. -/
theorem c8_counterexample :
    pipelineAfterSanitize [[("$lookup", Value.vObj [("from", Value.vStr "players")])]] =
      .ok [[("$lookup", Value.vObj [("from", Value.vStr "players"),
        ("pipeline", Value.vArr [Value.vObj [("$limit", Value.vNum 1000)]] [])])]] ∧
    [[("$lookup", Value.vObj [("from", Value.vStr "players"),
        ("pipeline", Value.vArr [Value.vObj [("$limit", Value.vNum 1000)]] [])])]] ≠
      [[("$lookup", Value.vObj [("from", Value.vStr "players")])]] :=
  ⟨rfl, by simp⟩

/-- C9 (confirmed): the sanitized output of any pipeline equals the
sanitized output of its first MAX_PIPELINE_STAGES (10) stages, so stages at
index 10 and beyond are never inspected and cannot appear in or influence
the output. -/
theorem c9_only_first_ten_inspected (p : Pipeline) :
    sanitizePipeline p = sanitizePipeline (p.take MAX_PIPELINE_STAGES) := by
  unfold sanitizePipeline sanitizeRun
  rw [List.take_take, min_self]
  cases hc : sanCore (p.take MAX_PIPELINE_STAGES) false false with
  | error e => rfl
  | ok r =>
    obtain ⟨out, ms, hl', hs'⟩ := r
    simp [Except.map]

/-- C10 (confirmed): every successful output of sanitizePipeline has
length at most min(input length, MAX_PIPELINE_STAGES) + 1: each considered
stage contributes at most one output stage and at most one synthetic limit
stage is added in total (the group overflow limit and the trailing limit
are mutually exclusive). -/
theorem c10_output_length_bound (p q : Pipeline) (h : sanitizePipeline p = .ok q) :
    q.length ≤ min p.length MAX_PIPELINE_STAGES + 1 := by
  unfold sanitizePipeline at h
  cases hc : sanCore (p.take MAX_PIPELINE_STAGES) false false with
  | error e => rw [sanitizeRun_error p e hc] at h; cases h
  | ok r =>
    obtain ⟨out, ms, hl', hs'⟩ := r
    rw [sanitizeRun_ok p out ms hl' hs' hc] at h
    simp only [Except.map] at h
    cases h
    have hlen := sanCore_len _ _ _ _ _ _ _ hc
    simp only [List.length_take] at hlen
    cases hl' with
    | true =>
      rw [Nat.min_comm p.length MAX_PIPELINE_STAGES]
      simpa using hlen
    | false =>
      have hred : (if (false : Bool) = true then out
          else out ++ [[("$limit", Value.vNum MAX_LIMIT)]]) =
          out ++ [[("$limit", Value.vNum MAX_LIMIT)]] := rfl
      rw [hred]
      rw [Nat.min_comm p.length MAX_PIPELINE_STAGES]
      simp only [List.length_append, List.length_cons, List.length_nil] at *
      omega

/-- C10 witness: the length bound applied to the concrete one-stage
$match pipeline, whose output has two stages. -/
theorem c10_witness :
    ([[("$match", Value.vObj [])], [("$limit", Value.vNum 1000)]] : Pipeline).length ≤
      min ([[("$match", Value.vObj [])]] : Pipeline).length MAX_PIPELINE_STAGES + 1 :=
  c10_output_length_bound [[("$match", Value.vObj [])]] _ rfl
